import Mathlib

/-!
Shallow embedding of `wwwclient/browse.py` (Python 2): the `Pairs` ordered
multimap, the `Request` builder, `Transaction` execution against a transport
collaborator, and the `Session` orchestrator (URL normalization, host and
protocol pinning, bounded transaction history).

Python strings are byte strings; we model them as Lean `String`s, and where a
property genuinely depends on byte-ness (percent-encoding) the theorems carry
the hypothesis that every character code is below 256.  Python `None` is
modelled with `Option`.  An `assert` failure or a raised exception is modelled
with the `PyErr` type below; a method that mutates its object before raising is
modelled as returning the mutated state together with an optional error.
-/

namespace WWWClient

/-- Errors raised by the code, following the spec's taxonomy (§7):
`unsupportedMethod`, `illegalState` (the body/attachment `assert`s),
`invalidArgument` (attach with neither file nor content), `invariantViolation`
(the `ppg.h` path assert), `sessionException` (bad submit method).
`attributeError` models a Python `AttributeError` (attribute access on an
object that lacks it), and `valueError` models `urlparse`'s invalid-IPv6
`ValueError`. -/
inductive PyErr where
  | unsupportedMethod
  | illegalState
  | invalidArgument
  | invariantViolation
  | sessionException
  | attributeError
  | valueError
deriving Repr, DecidableEq

/-! ## Pairs (browse.py lines 37-100) -/

/-- Model of `Pairs`: a list of (name, value) pairs preserving insertion order.
Values are modelled as `String` (in the claims' uses the values are strings;
Python would also allow `None`). -/
structure Pairs where
  pairs : List (String × String)
deriving Repr, DecidableEq

/-- Model of `Pairs.add` (line 60): appends `(name, value)` unless that exact pair is
already present. -/
def Pairs.add (p : Pairs) (name value : String) : Pairs :=
  if (name, value) ∈ p.pairs then p else ⟨p.pairs ++ [(name, value)]⟩

/-- Model of `Pairs.clear` (line 66): removes every pair whose name is exactly `name`
(case-sensitive). -/
def Pairs.clear (p : Pairs) (name : String) : Pairs :=
  ⟨p.pairs.filter (fun x => x.1 ≠ name)⟩

/-- Model of `Pairs.set` (line 47): `clear` then `add`. -/
def Pairs.set (p : Pairs) (name value : String) : Pairs :=
  (p.clear name).add name value

/-- Model of `Pairs.get` (line 53): first value whose name matches case-insensitively
after trimming whitespace on both sides; `None` (here `none`) if absent. -/
def Pairs.get (p : Pairs) (name : String) : Option String :=
  (p.pairs.find? (fun kv => name.toLower.trim == kv.1.toLower.trim)).map (·.2)

/-- Model of `Pairs.merge` (line 70) for a sequence/`Pairs` source: `add` of each pair
in order; never removes anything.  (The `dict` source case iterates the same
way over the mapping's items.) -/
def Pairs.mergeList (p : Pairs) (l : List (String × String)) : Pairs :=
  l.foldl (fun acc nv => acc.add nv.1 nv.2) p

/-- Model of `Pairs(params)` constructor (line 43): start empty, then `merge`. -/
def Pairs.make (l : List (String × String)) : Pairs :=
  Pairs.mergeList ⟨[]⟩ l

/-! ### urllib.urlencode / quote_plus (Python 2 stdlib, used by `asURL`) -/

/-- Model of `urllib.always_safe`: the characters `quote` never percent-encodes. -/
def alwaysSafe : List Char :=
  "ABCDEFGHIJKLMNOPQRSTUVWXYZabcdefghijklmnopqrstuvwxyz0123456789_.-".toList

/-- One uppercase hex digit, as produced by Python's `'%%%02X' % ord(c)`. -/
def hexDigitUpper (n : Nat) : Char :=
  match n with
  | 0 => '0' | 1 => '1' | 2 => '2' | 3 => '3' | 4 => '4' | 5 => '5' | 6 => '6'
  | 7 => '7' | 8 => '8' | 9 => '9' | 10 => 'A' | 11 => 'B' | 12 => 'C'
  | 13 => 'D' | 14 => 'E' | 15 => 'F'
  | _ => '0'

/-- Model of `'%02X' % n` for a byte `n`: two uppercase hex digits. -/
def toHex2 (n : Nat) : List Char :=
  [hexDigitUpper (n / 16), hexDigitUpper (n % 16)]

/-- Model of `urllib.quote(s, safe)`, per character: kept if in `always_safe + safe`,
otherwise percent-encoded. -/
def quoteChar (safe : List Char) (c : Char) : List Char :=
  if c ∈ alwaysSafe ++ safe then [c] else '%' :: toHex2 c.toNat

/-- Model of `urllib.quote(s, safe)`. -/
def quote (s : List Char) (safe : List Char) : List Char :=
  s.flatMap (quoteChar safe)

/-- Model of `urllib.quote_plus(s)` (safe defaulted to `''`): if a space occurs, quote
with space kept safe and then replace each space with `'+'`; else plain
`quote`. -/
def quotePlus (s : List Char) : List Char :=
  if ' ' ∈ s then (quote s [' ']).map (fun c => if c = ' ' then '+' else c)
  else quote s []

/-- Python `sep.join(pieces)` for a one-character separator. -/
def joinSep (sep : Char) : List (List Char) → List Char
  | [] => []
  | [x] => x
  | x :: xs => x ++ sep :: joinSep sep xs

/-- One `quote_plus(str(k)) + '=' + quote_plus(str(v))` piece of
`urllib.urlencode` (the `str()` coercions are identities here since names and
values are strings). -/
def encPiece (kv : String × String) : List Char :=
  quotePlus kv.1.data ++ '=' :: quotePlus kv.2.data

/-- Model of `urllib.urlencode(pairs)`: `'&'.join` of the per-pair pieces. -/
def urlencode (l : List (String × String)) : String :=
  String.mk (joinSep '&' (l.map encPiece))

/-- Model of `Pairs.asURL` (line 83): `urllib.urlencode(self.pairs)`. -/
def Pairs.asURL (p : Pairs) : String :=
  urlencode p.pairs

/-- Model of `Pairs.asFormData` (line 87): same as `asURL`. -/
def Pairs.asFormData (p : Pairs) : String :=
  urlencode p.pairs

/-- Model of `Pairs.asHeaders` (line 91): list of `"Name: Value"` strings. -/
def Pairs.asHeaders (p : Pairs) : List String :=
  p.pairs.map (fun kv => kv.1 ++ ": " ++ kv.2)

/-- Model of `Pairs.asCookies` (line 95): `"; ".join("name=value")`. -/
def Pairs.asCookies (p : Pairs) : String :=
  String.intercalate "; " (p.pairs.map (fun kv => kv.1 ++ "=" ++ kv.2))

/-! ### A standard URL decoder (spec side, for claim C9)

This is the comparison decoder the spec appeals to ("decoded by a standard
URL-decoder"): split the query string on `'&'`, split each piece at its first
`'='`, and `unquote_plus` both halves (Python 2 `urllib.unquote_plus`
semantics: `'+'` becomes a space, `%XX` with two hex digits becomes the byte,
a `'%'` not followed by two hex digits is kept literally). -/

/-- Is `c` a hexadecimal digit (either case)? -/
def isHexD (c : Char) : Bool :=
  ('0' ≤ c && c ≤ '9') || ('A' ≤ c && c ≤ 'F') || ('a' ≤ c && c ≤ 'f')

/-- Value of a hexadecimal digit. -/
def hexVal (c : Char) : Nat :=
  if '0' ≤ c && c ≤ '9' then c.toNat - '0'.toNat
  else if 'A' ≤ c && c ≤ 'F' then c.toNat - 'A'.toNat + 10
  else if 'a' ≤ c && c ≤ 'f' then c.toNat - 'a'.toNat + 10
  else 0

/-- Model of `urllib.unquote`: decode `%XX` escapes, keeping a malformed `'%'`
literal. -/
def unquoteL : List Char → List Char
  | [] => []
  | '%' :: d1 :: d2 :: rest2 =>
    if isHexD d1 && isHexD d2 then
      Char.ofNat (16 * hexVal d1 + hexVal d2) :: unquoteL rest2
    else '%' :: unquoteL (d1 :: d2 :: rest2)
  | '%' :: rest => '%' :: unquoteL rest
  | c :: rest => c :: unquoteL rest

/-- Model of `urllib.unquote_plus`: replace `'+'` with `' '`, then `unquote`. -/
def unquotePlus (s : List Char) : List Char :=
  unquoteL (s.map (fun c => if c = '+' then ' ' else c))

/-- Split a character list on every occurrence of `sep` (like Python's
`s.split(sep)`): always returns at least one piece. -/
def splitChar (sep : Char) : List Char → List (List Char)
  | [] => [[]]
  | c :: rest =>
    match splitChar sep rest with
    | [] => [[c]]
    | h :: t => if c = sep then [] :: h :: t else (c :: h) :: t

/-- Split at the first `'='`: `(name, value)`; a piece with no `'='` yields an
empty value. -/
def splitEqSign : List Char → List Char × List Char
  | [] => ([], [])
  | c :: rest =>
    if c = '=' then ([], rest)
    else
      let p := splitEqSign rest
      (c :: p.1, p.2)

/-- The standard URL decoder: `""` decodes to no pairs; otherwise split on
`'&'`, split each piece at the first `'='`, and `unquote_plus` each half. -/
def decodeURL (s : String) : List (String × String) :=
  if s.data = [] then []
  else (splitChar '&' s.data).map (fun piece =>
    (String.mk (unquotePlus (splitEqSign piece).1),
     String.mk (unquotePlus (splitEqSign piece).2)))

/-! ## Request (browse.py lines 108-186) -/

/-- Attachment kinds (`curl.FILE_ATTACHMENT` / `curl.CONTENT_ATTACHMENT`). -/
inductive AttachKind where
  | FILE_ATTACHMENT
  | CONTENT_ATTACHMENT
deriving Repr, DecidableEq

/-- One attachment tuple as appended by `Request.attach`: name, source, kind.
The source is an `Option String` because the code can append `None` there. -/
abbrev Attachment : Type := String × Option String × AttachKind

/-- The `Request` object's fields (lines 112-119).  `_method` is a string
(`"GET"`, `"POST"`, `"HEAD"` once validated); `_data` is the optional body. -/
structure Request where
  _method : String
  _url : String
  _params : Pairs
  _cookies : Pairs
  _headers : Pairs
  _data : Option String
  _attachments : List Attachment
deriving Repr, DecidableEq

/-- Python `s.upper()`, character-wise. -/
def pyUpper (s : String) : String :=
  String.mk (s.data.map Char.toUpper)

/-- Python `s.startswith(pre)`. -/
def pyStartsWith (s pre : String) : Bool :=
  s.data.take pre.data.length = pre.data

/-- Model of `Request.__init__` (line 112): upper-cases the method, builds `_params`
from the given pairs, and fails with `UnsupportedMethod` when the result is
not one of GET/POST/HEAD. -/
def Request.make (method : String) (url : String) (params : List (String × String))
    (data : Option String) : Except PyErr Request :=
  let m := pyUpper method
  if m = "GET" ∨ m = "POST" ∨ m = "HEAD" then
    .ok { _method := m, _url := url, _params := Pairs.make params,
          _cookies := ⟨[]⟩, _headers := ⟨[]⟩, _data := data, _attachments := [] }
  else .error .unsupportedMethod

/-- Model of `Request.method` (line 124). -/
def Request.method (r : Request) : String :=
  r._method

/-- Model of `Request.url` (line 128): appends `"?" + params.asURL()` unless the
Python condition `self._method == POST and self._data != None or
self._attachments` holds (note `and` binds tighter than `or`), or there are no
parameters. -/
def Request.url (r : Request) : String :=
  if r._params.pairs ≠ [] then
    if (r._method = "POST" ∧ r._data ≠ none) ∨ r._attachments ≠ [] then r._url
    else r._url ++ "?" ++ r._params.asURL
  else r._url

/-- Model of `Request.header` setter (line 144, `value != curl` branch):
`self._headers.set(name, str(value))`. -/
def Request.headerSet (r : Request) (name value : String) : Request :=
  { r with _headers := r._headers.set name value }

/-- Model of `Request.headers` (line 151): copy of `_headers`, with a `Cookie` header
synthesized from `_cookies` and concatenated onto a pre-existing, non-empty
`Cookie` value (the Python `if cookie_header:` test is truthiness, so an empty
string takes the plain branch). -/
def Request.headers (r : Request) : Pairs :=
  let headers := Pairs.make r._headers.pairs
  if r._cookies.pairs ≠ [] then
    match headers.get "Cookie" with
    | some ch =>
      if ch ≠ "" then headers.set "Cookie" (ch ++ "; " ++ r._cookies.asCookies)
      else headers.set "Cookie" r._cookies.asCookies
    | none => headers.set "Cookie" r._cookies.asCookies
  else headers

/-- Model of `Request.data()` used as a getter (line 163, `data == curl` branch).  The
`assert not self._attachments` at the top of the method fires for the getter
as well, so a request holding attachments cannot even be asked for its body:
the call raises (modelled as `IllegalState`, the spec's name for these
body/attachment asserts). -/
def Request.dataGetter (r : Request) : Except PyErr (Option String) :=
  if r._attachments ≠ [] then .error .illegalState
  else .ok r._data

/-- Model of `Request.data(value)` used as a setter: the assert fires (state unchanged)
when attachments exist; otherwise the method becomes POST and `_data` is
replaced.  Returns the post-call state plus the error, if any. -/
def Request.dataSetter (r : Request) (value : Option String) : Request × Option PyErr :=
  if r._attachments ≠ [] then (r, some .illegalState)
  else ({ r with _method := "POST", _data := value }, none)

/-- Model of `Request.attach` (line 173).  Order matters and is kept from the source:
the `assert self._data == None` runs first (state unchanged on failure), then
`self._method = POST` is assigned, and only then the file/content dispatch
happens — so the invalid-argument raise leaves the method already mutated.
In the content branch the source appends `(name, file, CONTENT_ATTACHMENT)`,
i.e. the `file` argument (which is `None` in that branch), not `content`. -/
def Request.attach (r : Request) (name : String) (file : Option String)
    (content : Option String) : Request × Option PyErr :=
  if r._data ≠ none then (r, some .illegalState)
  else
    let r1 := { r with _method := "POST" }
    match file with
    | some f =>
      ({ r1 with _attachments :=
          r1._attachments ++ [(name, some f, AttachKind.FILE_ATTACHMENT)] }, none)
    | none =>
      match content with
      | some _ =>
        ({ r1 with _attachments :=
            r1._attachments ++ [(name, none, AttachKind.CONTENT_ATTACHMENT)] }, none)
      | none => (r1, some .invalidArgument)

/-- Model of `Request.attachments` (line 185). -/
def Request.attachments (r : Request) : List Attachment :=
  r._attachments

/-! ## urlparse (Python 2.7.18 stdlib `urlparse.urlparse`, used at line 394)

Modelled from the stdlib source (the cache is dropped — it is semantically
transparent).  The scheme lists are the stdlib's; for the schemes this program
produces (`""`, `"http"`, `"https"`) membership always holds. -/

def usesNetloc : List String :=
  ["ftp", "http", "gopher", "nntp", "telnet", "imap", "wais", "file", "mms",
   "https", "shttp", "snews", "prospero", "rtsp", "rtspu", "rsync", "",
   "svn", "svn+ssh", "sftp", "nfs", "git", "git+ssh"]

def usesParams : List String :=
  ["ftp", "hdl", "prospero", "http", "imap", "https", "shttp", "rtsp",
   "rtspu", "sip", "sips", "mms", "", "sftp", "tel"]

def usesQuery : List String :=
  ["http", "wais", "imap", "https", "shttp", "mms", "gopher", "rtsp",
   "rtspu", "sip", "sips", ""]

def usesFragment : List String :=
  ["ftp", "hdl", "http", "gopher", "news", "nntp", "wais", "https", "shttp",
   "snews", "file", "prospero", ""]

/-- Model of `urlparse.scheme_chars`. -/
def schemeChars : List Char :=
  "abcdefghijklmnopqrstuvwxyzABCDEFGHIJKLMNOPQRSTUVWXYZ0123456789+-.".toList

/-- Model of `s.find(c, start)`: index of the first occurrence of `c` at or after
`start`, or `none`. -/
def findIdxFrom (l : List Char) (c : Char) (start : Nat) : Option Nat :=
  match (l.drop start).findIdx? (· = c) with
  | some i => some (start + i)
  | none => none

/-- Model of `urlparse._splitnetloc(url, start)`: the netloc runs from `start` to the
earliest of `'/'`, `'?'`, `'#'` (or the end). -/
def splitnetloc (url : List Char) (start : Nat) : List Char × List Char :=
  let delim := [findIdxFrom url '/' start, findIdxFrom url '?' start,
                findIdxFrom url '#' start].foldl
    (fun d o => match o with | some w => min d w | none => d) url.length
  ((url.drop start).take (delim - start), url.drop delim)

/-- Python `s.split(sep, 1)` as the pair (before, after); only used when `sep`
occurs in `s`. -/
def splitOnce (sep : Char) : List Char → List Char × List Char
  | [] => ([], [])
  | c :: rest =>
    if c = sep then ([], rest)
    else
      let p := splitOnce sep rest
      (c :: p.1, p.2)

/-- The invalid-IPv6 test in `urlsplit`: `'['` in netloc without `']'` or
vice versa raises `ValueError`. -/
def ipv6Bad (netloc : List Char) : Bool :=
  (netloc.contains '[' && !netloc.contains ']')
    || (netloc.contains ']' && !netloc.contains '[')

/-- Result of `urlsplit`: scheme, netloc, path, query, fragment. -/
structure SplitResult where
  scheme : List Char
  netloc : List Char
  path : List Char
  query : List Char
  fragment : List Char
deriving Repr, DecidableEq

/-- The tail of `urlsplit` once the scheme (possibly `""`) has been split off
`url`: netloc, fragment and query extraction.  For scheme `"http"` the three
membership tests below are all true, so this single tail also models the
source's `url[:i] == 'http'` fast path exactly. -/
def urlsplitRest (scheme : List Char) (url : List Char) : Except PyErr SplitResult :=
  let (netloc, url1) :=
    if url.take 2 = ['/', '/'] then splitnetloc url 2 else ([], url)
  if ipv6Bad netloc then .error .valueError
  else
    let (url2, fragment) :=
      if String.mk scheme ∈ usesFragment ∧ url1.contains '#'
      then splitOnce '#' url1 else (url1, [])
    let (url3, query) :=
      if String.mk scheme ∈ usesQuery ∧ url2.contains '?'
      then splitOnce '?' url2 else (url2, [])
    .ok ⟨scheme, netloc, url3, query, fragment⟩

/-- Model of `urlparse.urlsplit(url)` with `allow_fragments=True` (the default used by
`urlparse`).  The scheme is split off when a `':'` occurs at index `i > 0`,
either on the `"http"` fast path or when every character before the `':'` is
a scheme character and the remainder is not a pure port number. -/
def urlsplit (url : List Char) : Except PyErr SplitResult :=
  match url.findIdx? (· = ':') with
  | some i =>
    if 0 < i then
      if url.take i = "http".toList then
        urlsplitRest ((url.take i).map Char.toLower) (url.drop (i + 1))
      else if (url.take i).all (· ∈ schemeChars) then
        let rest := url.drop (i + 1)
        if rest = [] ∨ rest.any (fun c => !("0123456789".toList.contains c)) then
          urlsplitRest ((url.take i).map Char.toLower) rest
        else urlsplitRest [] url
      else urlsplitRest [] url
    else urlsplitRest [] url
  | none => urlsplitRest [] url

/-- Model of `s.rfind(c)`: index of the last occurrence (junk when absent; every use
below is guarded by containment). -/
def rfindIdx (l : List Char) (c : Char) : Nat :=
  l.length - 1 - l.reverse.findIdx (· = c)

/-- Model of `urlparse._splitparams(url)`: split the params off the last path
segment. -/
def splitparams (url : List Char) : List Char × List Char :=
  if url.contains '/' then
    match findIdxFrom url ';' (rfindIdx url '/') with
    | none => (url, [])
    | some i => (url.take i, url.drop (i + 1))
  else
    match url.findIdx? (· = ';') with
    | none => (url, [])
    | some i => (url.take i, url.drop (i + 1))

/-- Result of `urlparse`: scheme, netloc, path, params, query, fragment. -/
structure ParseResult where
  scheme : List Char
  netloc : List Char
  path : List Char
  params : List Char
  query : List Char
  fragment : List Char
deriving Repr, DecidableEq

/-- Model of `urlparse.urlparse(url)`. -/
def urlparse (url : List Char) : Except PyErr ParseResult :=
  match urlsplit url with
  | .error e => .error e
  | .ok sr =>
    if String.mk sr.scheme ∈ usesParams ∧ sr.path.contains ';' then
      let (p, ps) := splitparams sr.path
      .ok ⟨sr.scheme, sr.netloc, p, ps, sr.query, sr.fragment⟩
    else .ok ⟨sr.scheme, sr.netloc, sr.path, [], sr.query, sr.fragment⟩

/-! ## Transaction (browse.py lines 194-279) and the transport collaborator -/

/-- One blocking exchange as dispatched by `Transaction.do`: the transport
collaborator's `GET(url, headers)` or `POST(url, data, attach, headers)`. -/
inductive CurlCall where
  | GETc (url : String) (headers : List String)
  | POSTc (url : String) (data : Option String) (attach : List Attachment)
      (headers : List String)
deriving Repr, DecidableEq

/-- The transport collaborator's post-exchange state: `data()`, `redirect()`,
`newCookies()`. -/
structure CurlResponse where
  dataR : String
  redirectR : Option String
  newCookiesR : List (String × String)
deriving Repr, DecidableEq

/-- The shared `curl.HTTPClient` instance: the exchanges performed so far (in
order) and the current response state. -/
structure CurlState where
  log : List CurlCall
  resp : CurlResponse
deriving Repr, DecidableEq

/-- Model of `Transaction` fields (line 208): the initiating request, the
transaction-local cookie set, and the `done` flag.  (The `_session` and
`_curl` references are passed explicitly to `Transaction.do` below.) -/
structure Transaction where
  _request : Request
  _cookies : Pairs
  _done : Bool
deriving Repr, DecidableEq

/-- Model of `Transaction.url` (line 238): `self.request().url()`. -/
def Transaction.url (t : Transaction) : String :=
  t._request.url

/-- Model of `Transaction.do` (line 246), with the transport collaborator abstracted
as an `oracle` mapping an exchange to a response, and the session cookie jar
passed in for the merge at line 254.  Returns the post-call transaction and
transport state plus the error, if any, so that mutations that precede a
raise are preserved.  If already done it returns immediately; otherwise the
session's and the transaction's cookies are merged into the request, and the
dispatch happens: GET performs the exchange; POST first evaluates
`request.data()` — whose attachments assert can raise — then performs the
exchange; any other method raises `UnsupportedMethod`.  On a performed
exchange `_done` is set. -/
def Transaction.do (oracle : CurlCall → CurlResponse) (sessionCookies : Pairs)
    (t : Transaction) (curl : CurlState) :
    Transaction × CurlState × Option PyErr :=
  if t._done then (t, curl, none)
  else
    let request := t._request
    let request :=
      { request with _cookies :=
          (request._cookies.mergeList sessionCookies.pairs).mergeList t._cookies.pairs }
    let t1 := { t with _request := request }
    if request._method = "GET" then
      let call := CurlCall.GETc request.url request.headers.asHeaders
      ({ t1 with _done := true },
       { log := curl.log ++ [call], resp := oracle call }, none)
    else if request._method = "POST" then
      match request.dataGetter with
      | .error e => (t1, curl, some e)
      | .ok d =>
        let call := CurlCall.POSTc request.url d request._attachments
          request.headers.asHeaders
        ({ t1 with _done := true },
         { log := curl.log ++ [call], resp := oracle call }, none)
    else (t1, curl, some .unsupportedMethod)

/-! ## Session (browse.py lines 288-419) -/

/-- Model of `Session` state (line 308): pinned host and protocol (both start
unpinned), the transaction history, its bound, and the cookie jar. -/
structure SessionState where
  _host : Option String
  _protocol : Option String
  _transactions : List Transaction
  _maxTransactions : Nat
  _cookies : Pairs
deriving Repr, DecidableEq

/-- A fresh `Session()` with no initial URL: `MAX_TRANSACTIONS = 10`. -/
def freshSession : SessionState :=
  ⟨none, none, [], 10, ⟨[]⟩⟩

/-- Python `"%s" % x` for an optional string: `None` prints as `"None"`. -/
def pyStrOpt : Option String → String
  | none => "None"
  | some s => s

/-- Model of `Session.referer` (line 331) for a non-empty history: the last
transaction's `url()`. -/
def SessionState.referer (s : SessionState) : Option String :=
  (s._transactions.getLast?).map Transaction.url

/-- The core of `Session.__processURL` (line 382) once a concrete URL string
is in hand (i.e. after the `url == None` handling): prepend `"http://"` when
no host is pinned and the string does not start with `"http"`; `urlparse`;
pin the protocol on an http/https scheme and the host on a non-empty netloc;
fail on a path with the disallowed `"ppg.h"` prefix; recompose from the
pinned protocol and host (printed Python-style, so an unpinned `None` prints
as `"None"`), the path (defaulted to `"/"`), params, query and fragment. -/
def processURLStr (url0 : String) (s : SessionState) :
    Except PyErr (String × SessionState) :=
  let url1 := if s._host = none ∧ ¬pyStartsWith url0 "http"
              then "http://" ++ url0 else url0
  match urlparse url1.data with
  | .error e => .error e
  | .ok pr =>
    let protocol := if String.mk pr.scheme = "http" then some "http"
                    else if String.mk pr.scheme = "https" then some "https"
                    else s._protocol
    let host := if pr.netloc ≠ [] then some (String.mk pr.netloc) else s._host
    if pr.path.take 5 = "ppg.h".toList then .error .invariantViolation
    else
      let base := pyStrOpt protocol ++ "://" ++ pyStrOpt host
      let u1 := if pr.path ≠ [] ∧ pr.path.head? = some '/' then
                  base ++ String.mk pr.path
                else if pr.path ≠ [] then base ++ "/" ++ String.mk pr.path
                else base ++ "/"
      let u2 := if pr.params ≠ [] then u1 ++ ";" ++ String.mk pr.params else u1
      let u3 := if pr.query ≠ [] then u2 ++ "?" ++ String.mk pr.query else u2
      let u4 := if pr.fragment ≠ [] then u3 ++ "#" ++ String.mk pr.fragment else u3
      .ok (u4, { s with _protocol := protocol, _host := host })

/-- Model of `Session.__processURL` (line 382) including the `url == None` handling.
With no URL and no prior transaction the URL defaults to `"/"`.  With no URL
and a prior transaction the source runs `url = self.last().request.url()`
(line 387): `self.last().request` is the *bound method object* (the
parentheses are missing), and calling `.url()` on a method object raises
`AttributeError` — modelled as that error. -/
def processURL (urlIn : Option String) (s : SessionState) :
    Except PyErr (String × SessionState) :=
  match urlIn, s._transactions with
  | none, [] => processURLStr "/" s
  | none, _ :: _ => .error .attributeError
  | some u, _ => processURLStr u s

/-- Model of `Session._createRequest` (line 409): build the request, then set the
`Referer` header from `self.referer()` when a prior transaction exists. -/
def createRequest (s : SessionState) (method : String) (url : String)
    (params : List (String × String)) (data : Option String) :
    Except PyErr Request :=
  match Request.make method url params data with
  | .error e => .error e
  | .ok req =>
    match s.referer with
    | some ref => .ok (req.headerSet "Referer" ref)
    | none => .ok req

/-- Model of `Session.__addTransaction` (line 415) on the history list (newest last):
if the length already exceeds `maxTransactions`, drop the single oldest
entry; then append. -/
def addTransactionList (t : Transaction) (l : List Transaction) (maxT : Nat) :
    List Transaction :=
  (if maxT < l.length then l.tail else l) ++ [t]

/-- Model of `Session.__addTransaction` applied to the session. -/
def SessionState.addTransaction (s : SessionState) (t : Transaction) : SessionState :=
  { s with _transactions := addTransactionList t s._transactions s._maxTransactions }

/-- Model of `Session.get(url, params, follow, do=False)` (line 335): normalize the
URL, build a GET request (with auto-`Referer`), wrap it in a not-yet-done
transaction and append it to the history.  With `do=False` no exchange is
performed and `follow` is irrelevant, so this is the complete behavior. -/
def Session.get (urlIn : Option String) (params : List (String × String))
    (s : SessionState) : Except PyErr (Transaction × SessionState) :=
  match processURL urlIn s with
  | .error e => .error e
  | .ok (url, s1) =>
    match createRequest s1 "GET" url params none with
    | .error e => .error e
    | .ok req =>
      let t : Transaction := ⟨req, ⟨[]⟩, false⟩
      .ok (t, s1.addTransaction t)

/-- Model of `Session.post(url, params, data, follow, do=False)` (line 349): same
shape as `get` with method POST; the default `url` is `None`. -/
def Session.post (urlIn : Option String) (params : List (String × String))
    (data : Option String) (s : SessionState) :
    Except PyErr (Transaction × SessionState) :=
  match processURL urlIn s with
  | .error e => .error e
  | .ok (url, s1) =>
    match createRequest s1 "POST" url params data with
    | .error e => .error e
    | .ok req =>
      let t : Transaction := ⟨req, ⟨[]⟩, false⟩
      .ok (t, s1.addTransaction t)

/-! ## Concrete test fixtures -/

/-- A fresh `Request("GET", "/")` as built by the constructor with default
arguments (no params, no body, no attachments). -/
def freshGetRequest : Request :=
  ⟨"GET", "/", ⟨[]⟩, ⟨[]⟩, ⟨[]⟩, none, []⟩

/-- A `Request("GET", "/")` whose body has been set to `"body"` (the state
after `data("body")`: method POST, data present). -/
def bodyRequest : Request :=
  ⟨"POST", "/", ⟨[]⟩, ⟨[]⟩, ⟨[]⟩, some "body", []⟩

/-- A `Request("HEAD", "/h", params={"a": "b"})`. -/
def headRequest : Request :=
  ⟨"HEAD", "/h", ⟨[("a", "b")]⟩, ⟨[]⟩, ⟨[]⟩, none, []⟩

/-- A session that already holds one (not yet executed) transaction. -/
def sessionWithOne : SessionState :=
  ⟨some "www.example.com", some "http", [⟨freshGetRequest, ⟨[]⟩, false⟩], 10, ⟨[]⟩⟩

/-! ## Claim C10 — attach with no source mutates the method before raising -/

/-- Claim C10: when `attach(name)` is called with neither file nor content on
a request whose body is unset, the call raises `InvalidArgument`, but the
returned (post-call) state has its method already mutated to POST — the
failed `attach` is not atomic with respect to the request's method. -/
theorem attach_no_source_not_atomic (r : Request) (name : String)
    (h : r._data = none) :
    r.attach name none none = ({ r with _method := "POST" }, some .invalidArgument) := by
  simp [Request.attach, h]

/-- Witness for C10 at the fresh GET request. -/
theorem attach_no_source_not_atomic_witness :
    freshGetRequest.attach "field" none none =
      ({ freshGetRequest with _method := "POST" }, some .invalidArgument) :=
  attach_no_source_not_atomic freshGetRequest "field" rfl

/-! ## Claim C5 — content attachments record the file argument, not content -/

/-- Claim C5 (code bug, line 181): `attach("field", content="hello")` on a
fresh request succeeds and appends one `CONTENT_ATTACHMENT`, but the recorded
source is `None` — the source appends the `file` argument, which is `None` in
the content branch — not the materialized content `"hello"`. -/
theorem attach_content_source_is_none :
    (freshGetRequest.attach "field" none (some "hello")).2 = none ∧
    (freshGetRequest.attach "field" none (some "hello")).1._attachments =
      [("field", none, AttachKind.CONTENT_ATTACHMENT)] ∧
    (none : Option String) ≠ some "hello" := by
  refine ⟨rfl, rfl, by simp⟩

/-! ## Claim C4 — body/attachment exclusivity -/

/-- Claim C4 (code bug): the mutual-exclusion claims mostly hold — setting
data with attachments present fails leaving the state unchanged, attaching
with a body set fails leaving the state unchanged, a successful `data(x)`
leaves no attachments and forces POST, a successful or failed `attach` forces
POST — but the first conjunct of the claim is false on the code: after
`attach(...)` the `data()` *getter* does not return the absence marker; the
`assert not self._attachments` at the top of `data` fires for the getter too
and the call raises (first conjunct below, at the concrete failing input).
`Transaction.do` itself calls `request.data()` on POST dispatch, so the code
contradicts its own use of the getter. -/
theorem data_attach_exclusive :
    ((freshGetRequest.attach "field" none (some "hello")).2 = none ∧
     ((freshGetRequest.attach "field" none (some "hello")).1).dataGetter =
       .error .illegalState) ∧
    (∀ (r : Request) (v : Option String),
      (r.dataSetter v).2 = none →
        (r.dataSetter v).1._attachments = [] ∧ (r.dataSetter v).1._method = "POST") ∧
    (∀ (r : Request) (name : String) (f c : Option String) (x : String),
      r._data = some x → r.attach name f c = (r, some .illegalState)) ∧
    (∀ (r : Request) (v : Option String),
      r._attachments ≠ [] → r.dataSetter v = (r, some .illegalState)) ∧
    (∀ (r : Request) (name : String) (f c : Option String),
      r._data = none → ((r.attach name f c).1)._method = "POST") := by
  refine ⟨⟨rfl, rfl⟩, ?_, ?_, ?_, ?_⟩
  · intro r v h
    unfold Request.dataSetter at *
    by_cases ha : r._attachments = []
    · simp [ha]
    · simp [ha] at h
  · intro r name f c x h
    simp [Request.attach, h]
  · intro r v h
    simp [Request.dataSetter, h]
  · intro r name f c h
    unfold Request.attach
    simp only [h]
    cases f with
    | some fv => simp
    | none => cases c with
      | some cv => simp
      | none => simp

/-- Witness for C4: the attach-after-data conjunct at the concrete request
with body `"body"`. -/
theorem data_attach_exclusive_witness :
    bodyRequest.attach "field" none (some "x") = (bodyRequest, some .illegalState) :=
  data_attach_exclusive.2.2.1 bodyRequest "field" none (some "x") "body" rfl

/-! ## Claim C6 — when Request.url appends the query string -/

/-- Counterexample to claim C6 as stated: the claim says a HEAD request with
parameters returns the bare base URL, but the code's condition only suppresses
the query for a POST carrying data or for attachments, so HEAD appends the
query string. -/
theorem request_url_head_appends :
    headRequest.url = "/h?a=b" ∧ headRequest._url = "/h" ∧ ("/h?a=b" : String) ≠ "/h" := by
  refine ⟨rfl, rfl, by simp⟩

/-- Claim C6 as amended: `Request.url()` appends `"?" + params.asURL()` to
the base URL exactly when parameters are non-empty and neither (method POST
with body data set) nor any attachment is present — so GET, HEAD, and a
body-less attachment-less POST all append; a POST carrying data, or any
request with attachments, or empty parameters, returns the bare base URL. -/
theorem request_url_characterization (r : Request) :
    (r._params.pairs ≠ [] → ¬(r._method = "POST" ∧ r._data ≠ none) →
      r._attachments = [] → r.url = r._url ++ "?" ++ r._params.asURL) ∧
    (r._params.pairs = [] → r.url = r._url) ∧
    (r._method = "POST" → r._data ≠ none → r.url = r._url) ∧
    (r._attachments ≠ [] → r.url = r._url) := by
  refine ⟨?_, ?_, ?_, ?_⟩
  · intro hp hno ha
    simp [Request.url, hp, hno, ha]
  · intro hp
    simp [Request.url, hp]
  · intro hm hd
    unfold Request.url
    by_cases hp : r._params.pairs = [] <;> simp [hp, hm, hd]
  · intro ha
    unfold Request.url
    by_cases hp : r._params.pairs = [] <;> simp [hp, ha]

/-- Witness for C6 at the HEAD request with one parameter. -/
theorem request_url_characterization_witness :
    headRequest.url = headRequest._url ++ "?" ++ headRequest._params.asURL :=
  (request_url_characterization headRequest).1 (by simp [headRequest])
    (by simp [headRequest]) rfl

/-! ## Claim C2 — transaction history eviction -/

/-- Iterate `Session.get("/", do=False)` the given number of times (stopping
early on an error, which never happens on these inputs). -/
def getIter : Nat → SessionState → SessionState
  | 0, s => s
  | n + 1, s =>
    match Session.get (some "/") [] s with
    | .ok (_, s1) => getIter n s1
    | .error _ => s

/-- Claim C2: eviction is one-per-append FIFO.  Appending drops exactly the
single oldest transaction when the history length exceeds `maxTransactions`
(and nothing otherwise), the length never exceeds `maxTransactions + 1`, and
thirteen sequential `get(..., do=False)` calls on a fresh session with
`maxTransactions = 10` leave the history at exactly 10 or 11 (it is 11, the
documented off-by-one: the strict greater-than check runs before the
append). -/
theorem history_eviction_fifo :
    (∀ (l : List Transaction) (t : Transaction) (M : Nat),
      l.length ≤ M + 1 → (addTransactionList t l M).length ≤ M + 1) ∧
    (∀ (l : List Transaction) (t : Transaction) (M : Nat),
      l.length ≤ M → addTransactionList t l M = l ++ [t]) ∧
    (∀ (l : List Transaction) (t : Transaction) (M : Nat),
      M < l.length → addTransactionList t l M = l.tail ++ [t]) ∧
    ((getIter 13 freshSession)._transactions.length = 10 ∨
     (getIter 13 freshSession)._transactions.length = 11) := by
  refine ⟨?_, ?_, ?_, ?_⟩
  · intro l t M h
    unfold addTransactionList
    by_cases hM : M < l.length
    · rw [if_pos hM]
      cases l with
      | nil => simp at hM
      | cons a l1 =>
        simp only [List.length_append, List.length_cons, List.tail_cons,
          List.length_nil] at *
        omega
    · rw [if_neg hM]
      simp only [List.length_append, List.length_cons, List.length_nil]
      omega
  · intro l t M h
    unfold addTransactionList
    rw [if_neg (Nat.not_lt.mpr h)]
  · intro l t M h
    unfold addTransactionList
    rw [if_pos h]
  · right; decide

/-- Witness for C2: a one-element history under bound 10 grows by plain
append. -/
theorem history_eviction_fifo_witness :
    addTransactionList ⟨freshGetRequest, ⟨[]⟩, false⟩
        [⟨freshGetRequest, ⟨[]⟩, true⟩] 10 =
      [⟨freshGetRequest, ⟨[]⟩, true⟩, ⟨freshGetRequest, ⟨[]⟩, false⟩] :=
  history_eviction_fifo.2.1 [⟨freshGetRequest, ⟨[]⟩, true⟩]
    ⟨freshGetRequest, ⟨[]⟩, false⟩ 10 (by simp)

/-! ## Claim C3 — no URL supplied with a prior transaction -/

/-- Claim C3 is false on the code (code bug): with at least one prior
transaction and `url = None`, line 387 runs `url =
self.last().request.url()`; `self.last().request` is the bound method object
(the call parentheses are missing), so `.url()` raises `AttributeError` and
the outbound call fails instead of reusing the previous transaction's request
URL. -/
theorem post_no_url_attribute_error (s : SessionState)
    (h : s._transactions ≠ []) :
    Session.post none [] none s = .error .attributeError := by
  cases hT : s._transactions with
  | nil => exact absurd hT h
  | cons a l => simp [Session.post, processURL, hT]

/-- Witness for C3 at a session holding one transaction. -/
theorem post_no_url_attribute_error_witness :
    Session.post none [] none sessionWithOne = .error .attributeError :=
  post_no_url_attribute_error sessionWithOne (by simp [sessionWithOne])

/-! ## Claim C7 — Transaction.do is idempotent -/

/-- Claim C7: if `do()` completes without error, the transaction is marked
done, a second `do()` is a no-op returning the identical transaction and
transport state (hence identical response data, redirect target, cookies and
done flag), and the completed call performed at most one transport
exchange. -/
theorem transaction_do_idempotent (oracle : CurlCall → CurlResponse)
    (sc : Pairs) (t : Transaction) (curl : CurlState)
    (t1 : Transaction) (curl1 : CurlState)
    (h : Transaction.do oracle sc t curl = (t1, curl1, none)) :
    Transaction.do oracle sc t1 curl1 = (t1, curl1, none) ∧
    curl1.log.length ≤ curl.log.length + 1 := by
  have key : t1._done = true ∧ curl1.log.length ≤ curl.log.length + 1 := by
    simp only [Transaction.do] at h
    split at h
    · rename_i hd
      simp only [Prod.mk.injEq] at h
      obtain ⟨h1, h2, -⟩ := h
      subst h1; subst h2
      exact ⟨hd, by omega⟩
    · split at h
      · simp only [Prod.mk.injEq] at h
        obtain ⟨h1, h2, -⟩ := h
        subst h1; subst h2
        simp
      · split at h
        · split at h
          · simp only [Prod.mk.injEq] at h
            exact absurd h.2.2 (by simp)
          · simp only [Prod.mk.injEq] at h
            obtain ⟨h1, h2, -⟩ := h
            subst h1; subst h2
            simp
        · simp only [Prod.mk.injEq] at h
          exact absurd h.2.2 (by simp)
  refine ⟨?_, key.2⟩
  unfold Transaction.do
  simp [key.1]

/-- Concrete execution for the C7 witness: a fresh GET transaction against a
constant transport oracle. -/
def c7oracle : CurlCall → CurlResponse := fun _ => ⟨"", none, []⟩

def c7trans : Transaction := ⟨freshGetRequest, ⟨[]⟩, false⟩

def c7curl : CurlState := ⟨[], ⟨"", none, []⟩⟩

def c7t1 : Transaction := (Transaction.do c7oracle ⟨[]⟩ c7trans c7curl).1

def c7curl1 : CurlState := (Transaction.do c7oracle ⟨[]⟩ c7trans c7curl).2.1

/-- Witness for C7: the second `do()` on the executed fresh GET transaction
is a no-op and the exchange count grew by at most one. -/
theorem transaction_do_idempotent_witness :
    Transaction.do c7oracle ⟨[]⟩ c7t1 c7curl1 = (c7t1, c7curl1, none) ∧
    c7curl1.log.length ≤ c7curl.log.length + 1 :=
  transaction_do_idempotent c7oracle ⟨[]⟩ c7trans c7curl c7t1 c7curl1 rfl

/-! ## Claim C8 — Pairs invariants -/

/-- The mutating `Pairs` operations of the claim. -/
inductive PairsOp where
  | setOp (name value : String)
  | addOp (name value : String)
  | clearOp (name : String)
  | mergeOp (source : List (String × String))
deriving Repr, DecidableEq

/-- Apply one `Pairs` operation. -/
def PairsOp.apply (p : Pairs) : PairsOp → Pairs
  | .setOp n v => p.set n v
  | .addOp n v => p.add n v
  | .clearOp n => p.clear n
  | .mergeOp l => p.mergeList l

/-- Apply a sequence of `Pairs` operations in order. -/
def applyOps (p : Pairs) (ops : List PairsOp) : Pairs :=
  ops.foldl PairsOp.apply p

theorem mem_add (p : Pairs) (n v : String) (q : String × String) :
    q ∈ (p.add n v).pairs ↔ q ∈ p.pairs ∨ q = (n, v) := by
  unfold Pairs.add
  by_cases hm : (n, v) ∈ p.pairs
  · rw [if_pos hm]
    constructor
    · exact fun h => Or.inl h
    · rintro (h | h)
      · exact h
      · exact h ▸ hm
  · rw [if_neg hm]
    simp

theorem nodup_add (p : Pairs) (n v : String) (h : p.pairs.Nodup) :
    (p.add n v).pairs.Nodup := by
  unfold Pairs.add
  by_cases hm : (n, v) ∈ p.pairs
  · rwa [if_pos hm]
  · rw [if_neg hm]
    refine List.Nodup.append h (List.nodup_singleton _) ?_
    intro a ha hb
    rw [List.mem_singleton] at hb
    subst hb
    exact hm ha

theorem nodup_clear (p : Pairs) (n : String) (h : p.pairs.Nodup) :
    (p.clear n).pairs.Nodup :=
  h.filter _

theorem nodup_mergeList (l : List (String × String)) :
    ∀ p : Pairs, p.pairs.Nodup → (p.mergeList l).pairs.Nodup := by
  induction l with
  | nil => intro p h; exact h
  | cons x l ih =>
    intro p h
    exact ih (p.add x.1 x.2) (nodup_add p x.1 x.2 h)

theorem mergeList_append (l : List (String × String)) :
    ∀ p : Pairs, ∃ rest, (p.mergeList l).pairs = p.pairs ++ rest ∧
      ∀ q ∈ rest, q ∈ l ∧ q ∉ p.pairs := by
  induction l with
  | nil => intro p; exact ⟨[], by simp [Pairs.mergeList]⟩
  | cons x l ih =>
    intro p
    have hstep : p.mergeList (x :: l) = (p.add x.1 x.2).mergeList l := rfl
    by_cases hm : (x.1, x.2) ∈ p.pairs
    · have hadd : p.add x.1 x.2 = p := by unfold Pairs.add; rw [if_pos hm]
      obtain ⟨rest, h1, h2⟩ := ih (p.add x.1 x.2)
      refine ⟨rest, by rw [hstep, h1, hadd], fun q hq => ?_⟩
      obtain ⟨hql, hqn⟩ := h2 q hq
      exact ⟨List.mem_cons_of_mem x hql, by rwa [hadd] at hqn⟩
    · have hadd : (p.add x.1 x.2).pairs = p.pairs ++ [x] := by
        unfold Pairs.add; rw [if_neg hm]
      obtain ⟨rest, h1, h2⟩ := ih (p.add x.1 x.2)
      refine ⟨x :: rest, ?_, fun q hq => ?_⟩
      · rw [hstep, h1, hadd, List.append_assoc]
        rfl
      · rcases List.mem_cons.mp hq with hq | hq
        · subst hq
          exact ⟨List.mem_cons_self q l, hm⟩
        · obtain ⟨hql, hqn⟩ := h2 q hq
          rw [hadd] at hqn
          exact ⟨List.mem_cons_of_mem x hql,
            fun hc => hqn (List.mem_append_left _ hc)⟩

theorem mergeList_mem (l : List (String × String)) :
    ∀ (p : Pairs) (q : String × String),
      q ∈ (p.mergeList l).pairs ↔ q ∈ p.pairs ∨ q ∈ l := by
  induction l with
  | nil => intro p q; simp [Pairs.mergeList]
  | cons x l ih =>
    intro p q
    have hstep : p.mergeList (x :: l) = (p.add x.1 x.2).mergeList l := rfl
    rw [hstep, ih, mem_add]
    constructor
    · rintro ((h | h) | h)
      · exact Or.inl h
      · exact Or.inr (h ▸ List.mem_cons_self x l)
      · exact Or.inr (List.mem_cons_of_mem x h)
    · rintro (h | h)
      · exact Or.inl (Or.inl h)
      · rcases List.mem_cons.mp h with h | h
        · exact Or.inl (Or.inr h)
        · exact Or.inr h

/-- Claim C8: every sequence of set/add/clear/merge operations preserves
no-duplicate-pairs, and `merge` only appends — the original pair list is a
prefix of the result, everything appended comes from the source and was not
already present, and the final membership is exactly the union of the
original pairs and the source pairs. -/
theorem pairs_nodup_and_merge_appends :
    (∀ (ops : List PairsOp) (p : Pairs),
      p.pairs.Nodup → (applyOps p ops).pairs.Nodup) ∧
    (∀ (p : Pairs) (l : List (String × String)),
      (∃ rest, (p.mergeList l).pairs = p.pairs ++ rest ∧
        ∀ q ∈ rest, q ∈ l ∧ q ∉ p.pairs) ∧
      (∀ q, q ∈ (p.mergeList l).pairs ↔ q ∈ p.pairs ∨ q ∈ l)) := by
  constructor
  · intro ops
    induction ops with
    | nil => intro p h; exact h
    | cons op ops ih =>
      intro p h
      refine ih (PairsOp.apply p op) ?_
      cases op with
      | setOp n v => exact nodup_add _ n v (nodup_clear p n h)
      | addOp n v => exact nodup_add p n v h
      | clearOp n => exact nodup_clear p n h
      | mergeOp l => exact nodup_mergeList l p h
  · intro p l
    exact ⟨mergeList_append l p, mergeList_mem l p⟩

/-- Witness for C8: a concrete operation sequence keeps the list
duplicate-free. -/
theorem pairs_nodup_and_merge_appends_witness :
    (applyOps ⟨[]⟩ [PairsOp.addOp "a" "1", PairsOp.mergeOp [("a", "1"), ("b", "2")],
      PairsOp.setOp "a" "3"]).pairs.Nodup :=
  pairs_nodup_and_merge_appends.1 _ ⟨[]⟩ (by simp)

/-! ## Claim C1 — host/protocol pinning and re-pinning -/

theorem findIdx_none_of_contains_false (l : List Char) (c : Char)
    (h : l.contains c = false) :
    l.findIdx? (fun x => decide (x = c)) = none := by
  induction l with
  | nil => rfl
  | cons a l ih =>
    rw [List.contains_cons, Bool.or_eq_false_iff] at h
    have ha : ¬(a = c) := by
      intro hac
      subst hac
      simp at h
    rw [List.findIdx?_cons]
    simp [ha, ih h.2]

/-- Running `urlparse` on a plain relative path — one that starts without a scheme
(`':'`-free), without a netloc marker (`"//"` prefix), and without fragment,
query or params separators — returns the path unchanged and everything else
empty. -/
theorem urlparse_plain (p : List Char)
    (h1 : p.contains ':' = false) (h2 : p.contains '#' = false)
    (h3 : p.contains '?' = false) (h4 : p.contains ';' = false)
    (h5 : p.take 2 ≠ ['/', '/']) :
    urlparse p = .ok ⟨[], [], p, [], [], []⟩ := by
  have hf : p.findIdx? (fun x => decide (x = ':')) = none :=
    findIdx_none_of_contains_false p ':' h1
  have h2' : ¬('#' ∈ p) := by simpa using h2
  have h3' : ¬('?' ∈ p) := by simpa using h3
  have h4' : ¬(';' ∈ p) := by simpa using h4
  simp only [urlparse, urlsplit, urlsplitRest, hf]
  rw [if_neg h5]
  simp [ipv6Bad, h2', h3', h4']

/-- Relative resolution against the pinned host and protocol: with a host
pinned, `__processURL` on a plain relative path leaves the session unchanged
and resolves to protocol ++ "://" ++ host ++ path. -/
theorem processURL_plain_relative (s : SessionState) (p : String)
    (hh : s._host ≠ none)
    (h0 : p.data.head? = some '/')
    (h1 : p.data.contains ':' = false) (h2 : p.data.contains '#' = false)
    (h3 : p.data.contains '?' = false) (h4 : p.data.contains ';' = false)
    (h5 : p.data.take 2 ≠ ['/', '/']) :
    processURL (some p) s =
      .ok (pyStrOpt s._protocol ++ "://" ++ pyStrOpt s._host ++ p, s) := by
  obtain ⟨c, rest, hcr, hc⟩ : ∃ c rest, p.data = c :: rest ∧ c = '/' := by
    cases hd : p.data with
    | nil => rw [hd] at h0; simp at h0
    | cons c rest =>
      rw [hd] at h0
      simp at h0
      exact ⟨c, rest, rfl, h0⟩
  subst hc
  have hparse := urlparse_plain p.data h1 h2 h3 h4 h5
  simp only [processURL, processURLStr]
  rw [if_neg (fun hand => hh hand.1)]
  rw [hparse]
  have hppg : ¬((('/' : Char) :: rest).take 5 = "ppg.h".toList) := by
    cases rest <;> simp [List.take]
  simp only [hcr]
  rw [if_neg hppg]
  have hmem1 : ¬(String.mk ([] : List Char) = "http") := by decide
  have hmem2 : ¬(String.mk ([] : List Char) = "https") := by decide
  simp only [hmem1, hmem2, if_false, ne_eq, reduceCtorEq, not_false_eq_true,
    List.head?_cons, List.cons_ne_self]
  simp only [← hcr]
  have hne : ¬(p.data = []) := by rw [hcr]; simp
  simp [hne, hcr]
  rw [← hcr]

/-- The C1 scenario, step by step with `do=False` requests (URL normalization
and pinning happen in `__processURL`, before any execution). -/
def c1step1 : Except PyErr (Transaction × SessionState) :=
  Session.get (some "www.example.com") [] freshSession

def c1s1 : SessionState :=
  match c1step1 with
  | .ok pr => pr.2
  | .error _ => freshSession

def c1t1 : Transaction :=
  match c1step1 with
  | .ok pr => pr.1
  | .error _ => ⟨freshGetRequest, ⟨[]⟩, false⟩

def c1step2 : Except PyErr (Transaction × SessionState) :=
  Session.get (some "/path") [] c1s1

def c1s2 : SessionState :=
  match c1step2 with
  | .ok pr => pr.2
  | .error _ => freshSession

def c1t2 : Transaction :=
  match c1step2 with
  | .ok pr => pr.1
  | .error _ => ⟨freshGetRequest, ⟨[]⟩, false⟩

def c1step3 : Except PyErr (Transaction × SessionState) :=
  Session.get (some "https://other.org/x") [] c1s2

def c1t3 : Transaction :=
  match c1step3 with
  | .ok pr => pr.1
  | .error _ => ⟨freshGetRequest, ⟨[]⟩, false⟩

def c1s3 : SessionState :=
  match c1step3 with
  | .ok pr => pr.2
  | .error _ => freshSession

/-- Claim C1: on a fresh session, `get("www.example.com")` pins protocol
`http` and host `www.example.com`; the following `get("/path")` resolves to
the absolute URL `"http://www.example.com/path"`; a subsequent
`get("https://other.org/x")` re-pins the session to protocol `https` and
host `other.org` (last absolute URL wins); and afterwards every plain
relative target `p` resolves against the re-pinned pair, to
`"https://other.org" ++ p`, leaving the session state unchanged. -/
theorem session_pins_and_repins :
    (∃ t1, c1step1 = .ok (t1, c1s1)) ∧
    c1s1._protocol = some "http" ∧
    c1s1._host = some "www.example.com" ∧
    (∃ t2, c1step2 = .ok (t2, c1s2) ∧
      t2._request._url = "http://www.example.com/path") ∧
    (∃ t3, c1step3 = .ok (t3, c1s3) ∧
      t3._request._url = "https://other.org/x") ∧
    c1s3._protocol = some "https" ∧
    c1s3._host = some "other.org" ∧
    (∀ p : String, p.data.head? = some '/' → p.data.take 2 ≠ ['/', '/'] →
      p.data.contains ':' = false → p.data.contains '#' = false →
      p.data.contains '?' = false → p.data.contains ';' = false →
      processURL (some p) c1s3 = .ok ("https://other.org" ++ p, c1s3)) := by
  refine ⟨⟨c1t1, rfl⟩, rfl, rfl, ⟨c1t2, rfl, rfl⟩,
    ⟨c1t3, rfl, rfl⟩, rfl, rfl, ?_⟩
  intro p h0 h5 h1 h2 h3 h4
  exact processURL_plain_relative c1s3 p (by decide) h0 h1 h2 h3 h4 h5

/-- Witness for C1: the relative target `"/y"` after the re-pin. -/
theorem session_pins_and_repins_witness :
    processURL (some "/y") c1s3 = .ok ("https://other.org/y", c1s3) :=
  session_pins_and_repins.2.2.2.2.2.2.2 "/y" (by decide) (by decide)
    (by decide) (by decide) (by decide) (by decide)

/-! ## Claim C9 — asURL round-trips through a standard URL decoder -/

theorem unquoteL_cons (c : Char) (l : List Char) (h : c ≠ '%') :
    unquoteL (c :: l) = c :: unquoteL l := by
  rw [unquoteL.eq_def]
  split
  · rename_i heq
    exact absurd heq (by simp)
  · rename_i heq
    injection heq with h1 h2
    exact absurd h1 h
  · rename_i heq
    injection heq with h1 h2
    exact absurd h1 h
  · rename_i heq
    injection heq with h1 h2
    subst h1
    subst h2
    rfl

theorem unquoteL_hex (d1 d2 : Char) (l : List Char)
    (h : (isHexD d1 && isHexD d2) = true) :
    unquoteL ('%' :: d1 :: d2 :: l) =
      Char.ofNat (16 * hexVal d1 + hexVal d2) :: unquoteL l := by
  simp [unquoteL, h]

/-- The per-character encoding performed by `quote_plus`. -/
def encChar (c : Char) : List Char :=
  if c = ' ' then ['+'] else if c ∈ alwaysSafe then [c] else '%' :: toHex2 c.toNat

/-- The per-character encoding after the decoder's plus-to-space map. -/
def encChar2 (c : Char) : List Char :=
  if c = ' ' then [' '] else if c ∈ alwaysSafe then [c] else '%' :: toHex2 c.toNat

theorem hexDigitUpper_mem (n : Nat) : hexDigitUpper n ∈ "0123456789ABCDEF".data := by
  unfold hexDigitUpper
  split <;> decide

theorem hexChar_facts : ∀ c ∈ "0123456789ABCDEF".data,
    isHexD c = true ∧ c ≠ ' ' ∧ c ≠ '+' ∧ c ≠ '%' ∧ c ≠ '&' ∧ c ≠ '=' := by decide

theorem alwaysSafe_facts : ∀ c ∈ alwaysSafe,
    c ≠ ' ' ∧ c ≠ '+' ∧ c ≠ '%' ∧ c ≠ '&' ∧ c ≠ '=' := by decide

theorem hexVal_hexDigitUpper : ∀ n < 16, hexVal (hexDigitUpper n) = n := by decide

theorem flatMap_congr_mem {α β : Type} (l : List α) (f g : α → List β)
    (h : ∀ x ∈ l, f x = g x) : l.flatMap f = l.flatMap g := by
  induction l with
  | nil => rfl
  | cons a l ih =>
    simp only [List.flatMap_cons]
    rw [h a (List.mem_cons_self a l), ih (fun x hx => h x (List.mem_cons_of_mem a hx))]

theorem map_id_mem {α : Type} (l : List α) (f : α → α) (h : ∀ x ∈ l, f x = x) :
    l.map f = l := by
  induction l with
  | nil => rfl
  | cons a l ih =>
    simp only [List.map_cons]
    rw [h a (List.mem_cons_self a l), ih (fun x hx => h x (List.mem_cons_of_mem a hx))]

theorem quotePlus_eq_flatMap (l : List Char) :
    quotePlus l = l.flatMap encChar := by
  unfold quotePlus quote
  by_cases hsp : ' ' ∈ l
  · rw [if_pos hsp, List.map_flatMap]
    refine flatMap_congr_mem _ _ _ (fun c _ => ?_)
    unfold quoteChar encChar
    by_cases hc : c = ' '
    · subst hc; decide
    · rw [if_neg hc]
      by_cases hs : c ∈ alwaysSafe
      · have hmem : c ∈ alwaysSafe ++ [' '] := List.mem_append_left _ hs
        rw [if_pos hmem, if_pos hs]
        simp [(alwaysSafe_facts c hs).1]
      · have hmem : ¬(c ∈ alwaysSafe ++ [' ']) := by
          rw [List.mem_append]
          rintro (hx | hx)
          · exact hs hx
          · rw [List.mem_singleton] at hx
            exact hc hx
        rw [if_neg hmem, if_neg hs]
        simp only [toHex2, List.map_cons, List.map_nil]
        have m1 := hexChar_facts _ (hexDigitUpper_mem (c.toNat / 16))
        have m2 := hexChar_facts _ (hexDigitUpper_mem (c.toNat % 16))
        simp [m1.2.1, m2.2.1]
  · rw [if_neg hsp]
    refine flatMap_congr_mem _ _ _ (fun c hc => ?_)
    have hcs : c ≠ ' ' := fun he => hsp (he ▸ hc)
    unfold quoteChar encChar
    rw [List.append_nil, if_neg hcs]

theorem encChar_plus (c : Char) :
    (encChar c).map (fun x => if x = '+' then ' ' else x) = encChar2 c := by
  unfold encChar encChar2
  by_cases hc : c = ' '
  · subst hc; decide
  · rw [if_neg hc, if_neg hc]
    by_cases hs : c ∈ alwaysSafe
    · rw [if_pos hs]
      simp [(alwaysSafe_facts c hs).2.1]
    · rw [if_neg hs]
      simp only [toHex2, List.map_cons, List.map_nil]
      have m1 := hexChar_facts _ (hexDigitUpper_mem (c.toNat / 16))
      have m2 := hexChar_facts _ (hexDigitUpper_mem (c.toNat % 16))
      simp [m1.2.2.1, m2.2.2.1]

theorem unquote_encChar2 (c : Char) (hb : c.toNat < 256) (R : List Char) :
    unquoteL (encChar2 c ++ R) = c :: unquoteL R := by
  unfold encChar2
  by_cases hc : c = ' '
  · subst hc
    rw [if_pos rfl]
    exact unquoteL_cons ' ' R (by decide)
  · rw [if_neg hc]
    by_cases hs : c ∈ alwaysSafe
    · rw [if_pos hs]
      exact unquoteL_cons c R (alwaysSafe_facts c hs).2.2.1
    · rw [if_neg hs]
      simp only [toHex2, List.cons_append, List.nil_append]
      have m1 := hexChar_facts _ (hexDigitUpper_mem (c.toNat / 16))
      have m2 := hexChar_facts _ (hexDigitUpper_mem (c.toNat % 16))
      rw [unquoteL_hex _ _ _ (by rw [m1.1, m2.1]; rfl)]
      congr 1
      rw [hexVal_hexDigitUpper _ (by omega), hexVal_hexDigitUpper _ (by omega)]
      have hsum : 16 * (c.toNat / 16) + c.toNat % 16 = c.toNat := by omega
      rw [hsum, Char.ofNat_toNat]

theorem unquote_flatMap :
    ∀ l : List Char, (∀ c ∈ l, c.toNat < 256) →
      unquoteL (l.flatMap encChar2) = l := by
  intro l
  induction l with
  | nil => intro _; rfl
  | cons c l ih =>
    intro hb
    rw [List.flatMap_cons, unquote_encChar2 c (hb c (List.mem_cons_self c l)),
      ih (fun x hx => hb x (List.mem_cons_of_mem c hx))]

theorem unquotePlus_quotePlus (l : List Char) (hb : ∀ c ∈ l, c.toNat < 256) :
    unquotePlus (quotePlus l) = l := by
  unfold unquotePlus
  rw [quotePlus_eq_flatMap, List.map_flatMap,
    flatMap_congr_mem _ _ _ (fun c _ => encChar_plus c)]
  exact unquote_flatMap l hb

theorem mem_quotePlus (l : List Char) (x : Char) (hx : x ∈ quotePlus l) :
    x ≠ '&' ∧ x ≠ '=' := by
  rw [quotePlus_eq_flatMap, List.mem_flatMap] at hx
  obtain ⟨c, _, hc⟩ := hx
  unfold encChar at hc
  by_cases h1 : c = ' '
  · rw [if_pos h1] at hc
    rw [List.mem_singleton] at hc
    subst hc
    exact ⟨by decide, by decide⟩
  · rw [if_neg h1] at hc
    by_cases h2 : c ∈ alwaysSafe
    · rw [if_pos h2] at hc
      rw [List.mem_singleton] at hc
      subst hc
      exact ⟨(alwaysSafe_facts x h2).2.2.2.1, (alwaysSafe_facts x h2).2.2.2.2⟩
    · rw [if_neg h2] at hc
      simp only [toHex2, List.mem_cons, List.mem_singleton, List.not_mem_nil,
        or_false] at hc
      rcases hc with hc | hc | hc
      · subst hc; exact ⟨by decide, by decide⟩
      · subst hc
        have m := hexChar_facts _ (hexDigitUpper_mem (c.toNat / 16))
        exact ⟨m.2.2.2.2.1, m.2.2.2.2.2⟩
      · subst hc
        have m := hexChar_facts _ (hexDigitUpper_mem (c.toNat % 16))
        exact ⟨m.2.2.2.2.1, m.2.2.2.2.2⟩

theorem splitChar_ne_nil (sep : Char) (l : List Char) : splitChar sep l ≠ [] := by
  cases l with
  | nil => simp [splitChar]
  | cons c rest =>
    unfold splitChar
    cases h : splitChar sep rest with
    | nil => simp
    | cons a t => by_cases hc : c = sep <;> simp [hc]

theorem splitChar_no_sep (sep : Char) (l : List Char) (h : sep ∉ l) :
    splitChar sep l = [l] := by
  induction l with
  | nil => rfl
  | cons c rest ih =>
    have hc : c ≠ sep := fun he => h (he ▸ List.mem_cons_self c rest)
    unfold splitChar
    rw [ih (fun hm => h (List.mem_cons_of_mem c hm))]
    simp [hc]

theorem splitChar_append (sep : Char) (a l : List Char) (h : sep ∉ a) :
    splitChar sep (a ++ sep :: l) = a :: splitChar sep l := by
  induction a with
  | nil =>
    simp only [List.nil_append]
    cases hs : splitChar sep l with
    | nil => exact absurd hs (splitChar_ne_nil sep l)
    | cons x t => simp [splitChar, hs]
  | cons c a ih =>
    have hc : c ≠ sep := fun he => h (he ▸ List.mem_cons_self c a)
    simp only [List.cons_append]
    simp [splitChar, ih (fun hm => h (List.mem_cons_of_mem c hm)), hc]

theorem splitChar_joinSep (sep : Char) :
    ∀ pieces : List (List Char), pieces ≠ [] → (∀ p ∈ pieces, sep ∉ p) →
      splitChar sep (joinSep sep pieces) = pieces := by
  intro pieces
  induction pieces with
  | nil => intro h _; exact absurd rfl h
  | cons x xs ih =>
    intro _ hno
    cases xs with
    | nil =>
      exact splitChar_no_sep sep x (hno x (List.mem_cons_self x []))
    | cons y ys =>
      have hj : joinSep sep (x :: y :: ys) = x ++ sep :: joinSep sep (y :: ys) := rfl
      rw [hj, splitChar_append sep x _ (hno x (List.mem_cons_self x (y :: ys))),
        ih (by simp) (fun q hq => hno q (List.mem_cons_of_mem x hq))]

theorem splitEqSign_append (a b : List Char) (h : '=' ∉ a) :
    splitEqSign (a ++ '=' :: b) = (a, b) := by
  induction a with
  | nil => simp [splitEqSign]
  | cons c a ih =>
    have hc : c ≠ '=' := fun he => h (he ▸ List.mem_cons_self c a)
    simp only [List.cons_append, splitEqSign, List.append_eq]
    rw [if_neg hc, ih (fun hm => h (List.mem_cons_of_mem c hm))]

theorem joinSep_ne_nil (sep : Char) (x : List Char) (xs : List (List Char))
    (hx : x ≠ []) : joinSep sep (x :: xs) ≠ [] := by
  cases xs with
  | nil => simpa [joinSep] using hx
  | cons y ys => simp [joinSep]

/-- Python 2 byte strings: every character code is below 256. -/
abbrev byteOK (s : String) : Prop := ∀ c ∈ s.data, c.toNat < 256

theorem decodeURL_mk (X : List Char) :
    decodeURL (String.mk X) =
      if X = [] then []
      else (splitChar '&' X).map (fun piece =>
        (String.mk (unquotePlus (splitEqSign piece).1),
         String.mk (unquotePlus (splitEqSign piece).2))) := rfl

theorem urlencode_roundtrip (l : List (String × String))
    (hb : ∀ kv ∈ l, byteOK kv.1 ∧ byteOK kv.2) :
    decodeURL (urlencode l) = l := by
  unfold urlencode
  rw [decodeURL_mk]
  cases l with
  | nil => simp [joinSep]
  | cons kv0 rest =>
    have hpne : encPiece kv0 ≠ [] := by
      unfold encPiece
      exact List.append_ne_nil_of_right_ne_nil _ (by simp)
    have hjne : joinSep '&' ((kv0 :: rest).map encPiece) ≠ [] := by
      simp only [List.map_cons]
      exact joinSep_ne_nil '&' _ _ hpne
    have hno : ∀ q ∈ (kv0 :: rest).map encPiece, '&' ∉ q := by
      intro q hq hamp
      rw [List.mem_map] at hq
      obtain ⟨kv, _, hkv⟩ := hq
      subst hkv
      unfold encPiece at hamp
      rw [List.mem_append, List.mem_cons] at hamp
      rcases hamp with hm | hm | hm
      · exact (mem_quotePlus _ _ hm).1 rfl
      · exact absurd hm (by decide)
      · exact (mem_quotePlus _ _ hm).1 rfl
    rw [if_neg hjne, splitChar_joinSep '&' _ (by simp) hno, List.map_map]
    refine map_id_mem _ _ (fun kv hkv => ?_)
    have hbk := hb kv hkv
    have heq : '=' ∉ quotePlus kv.1.data :=
      fun hm => (mem_quotePlus _ _ hm).2 rfl
    simp only [Function.comp_apply, encPiece, splitEqSign_append _ _ heq]
    rw [unquotePlus_quotePlus _ hbk.1, unquotePlus_quotePlus _ hbk.2]

/-- Claim C9: for every `Pairs` over byte strings, decoding `asURL()` with
the standard URL decoder (split on `'&'`, split each piece at its first
`'='`, `unquote_plus` each half) reproduces exactly the original pairs in
their original insertion order. -/
theorem asURL_roundtrip (p : Pairs)
    (hb : ∀ kv ∈ p.pairs, byteOK kv.1 ∧ byteOK kv.2) :
    decodeURL p.asURL = p.pairs :=
  urlencode_roundtrip p.pairs hb

/-- Witness for C9 at a concrete pair list exercising spaces, reserved
characters and percent signs. -/
theorem asURL_roundtrip_witness :
    decodeURL (Pairs.asURL ⟨[("a b", "c&d"), ("x", "1=2+3%")]⟩) =
      [("a b", "c&d"), ("x", "1=2+3%")] :=
  asURL_roundtrip ⟨[("a b", "c&d"), ("x", "1=2+3%")]⟩ (by decide)

end WWWClient
